import Mathlib

/-!
Shallow embedding of `proyecto_datos_circulacion/02_data_validation_cleaning.ipynb`,
a pandas notebook that loads a table of vehicle circulation permits, inspects it
(missing-value counts, duplicate count, negative-duration count), cleans it
(drop exact-duplicate rows keeping the first occurrence; strip+capitalize
`tipo_vehiculo`; fill missing `duracion_dias` with the column median; fill
missing `zona_circulacion` with the column mode; overwrite negative
`duracion_dias` with the median computed before the overwrite), and writes the
cleaned table back out without the row index.

Modelling conventions:
* A cell that pandas renders as `NaN` (missing) is `Option.none`.
* Text cells are `List Char` (ASCII-faithful model of Python strings;
  `str.strip`, `str.capitalize` and string `<` are modelled on ASCII exactly
  as Python computes them there).
* Numeric `duracion_dias` cells are rationals, so the median's average of the
  two middle values is exact.
* `Series.median()` skips missing values and, for an even count of non-missing
  values, averages the two middle ones; `median` of an all-missing column is
  `NaN`, and `fillna(NaN)` is a no-op, which `Option` fallback reproduces.
* `Series.mode()` returns the most frequent non-missing values sorted in
  ascending order, and the notebook takes `[0]`, i.e. the smallest value among
  the tied most-frequent ones; `mode()[0]` of an all-missing (or empty) column
  raises `KeyError`, so the Clean stage is `Option`-valued and returns `none`
  exactly there.
* `df.loc[df['duracion_dias'] < 0, 'duracion_dias'] = median_duracion`: the
  comparison `NaN < 0` is `False` in pandas, so only non-missing negative cells
  are overwritten, each with the (possibly missing) median.
-/

namespace Circulacion

/-- Python strings, modelled as lists of characters. -/
abbrev Str := List Char

/-- The characters Python's `str.strip()` removes by default
(ASCII whitespace: space, tab, newline, carriage return, vertical tab, form feed). -/
def pyIsSpace (c : Char) : Bool :=
  c = ' ' || c = '\t' || c = '\n' || c = '\r' || c = '\x0b' || c = '\x0c'

/-- Python `str.strip()`: remove leading and trailing whitespace. -/
def pyStrip (s : Str) : Str :=
  ((s.dropWhile pyIsSpace).reverse.dropWhile pyIsSpace).reverse

/-- Python `str.capitalize()`: first character uppercased, all remaining
characters lowercased. -/
def pyCapitalize : Str → Str
  | [] => []
  | c :: cs => c.toUpper :: cs.map Char.toLower

/-- Python string comparison `a < b` on ASCII strings: lexicographic by
character code, a proper prefix is smaller. `Series.mode()` sorts its result
with this order. -/
def strLt : Str → Str → Bool
  | _, [] => false
  | [], _ :: _ => true
  | c :: cs, d :: ds =>
    c.toNat < d.toNat || (c = d && strLt cs ds)

/-- One row (Permit Record) of the dataset: the three validated columns plus
the passthrough cells of any additional columns, in column order. -/
structure Row where
  tipo_vehiculo : Option Str
  duracion_dias : Option ℚ
  zona_circulacion : Option Str
  extra : List (Option Str)
deriving DecidableEq

/-- A default row, used only as the out-of-range fallback of `List.getD`. -/
def defaultRow : Row :=
  { tipo_vehiculo := none, duracion_dias := none, zona_circulacion := none, extra := [] }

instance : Inhabited Row := ⟨defaultRow⟩

/-- The dataset: an ordered list of rows sharing the fixed schema. -/
abbrev Table := List Row

/-- A loaded dataframe: the column header plus the rows. The cleaning cell
never adds, removes or reorders columns, and `to_csv(index=False)` writes the
same header back without a row-index column. -/
structure Frame where
  header : List Str
  rows : Table
deriving DecidableEq

/-- `df.drop_duplicates()`: keep the first occurrence of each row value, drop
every later exact duplicate, preserving the order of survivors. -/
def dropDuplicates {α : Type} [DecidableEq α] : List α → List α
  | [] => []
  | x :: xs => x :: (dropDuplicates xs).filter (fun y => y ≠ x)

/-- Rows kept by first-occurrence deduplication, phrased the way the spec
does: scanning in order with the set `seen` of earlier row values, a row is
dropped exactly when it equals an earlier row and kept otherwise. This is the
specification-side description that `dropDuplicates` is compared against. -/
def specKeepFirst {α : Type} [DecidableEq α] (seen : List α) : List α → List α
  | [] => []
  | x :: xs => if x ∈ seen then specKeepFirst seen xs else x :: specKeepFirst (x :: seen) xs

/-- `df.duplicated().sum()` with `seen` accumulating earlier row values: the
number of rows equal to some earlier row. -/
def duplicateRowCount {α : Type} [DecidableEq α] (seen : List α) : List α → Nat
  | [] => 0
  | x :: xs => if x ∈ seen then duplicateRowCount seen xs + 1 else duplicateRowCount (x :: seen) xs

/-- The non-missing values of the `duracion_dias` column, in row order. -/
def nonNullDuraciones (t : Table) : List ℚ :=
  t.filterMap Row.duracion_dias

/-- The non-missing values of the `zona_circulacion` column, in row order. -/
def nonNullZonas (t : Table) : List Str :=
  t.filterMap Row.zona_circulacion

/-- `Series.median()` over the non-missing values: sort ascending; the middle
value for an odd count, the average of the two middle values for an even
count, `NaN` (here `none`) for an empty list. -/
def median (l : List ℚ) : Option ℚ :=
  let s := List.insertionSort (· ≤ ·) l
  if s.length = 0 then none
  else if s.length % 2 = 1 then some (s.getD (s.length / 2) 0)
  else some ((s.getD (s.length / 2 - 1) 0 + s.getD (s.length / 2) 0) / 2)

/-- The highest occurrence count attained by any value of `l`. -/
def maxCountOf (l : List Str) : Nat :=
  ((dropDuplicates l).map (fun v => l.count v)).foldr max 0

/-- The distinct values of `l` that attain the maximal occurrence count, in
first-occurrence order (`Series.mode()` before its ascending sort). -/
def modeCandidates (l : List Str) : List Str :=
  (dropDuplicates l).filter (fun v => l.count v = maxCountOf l)

/-- The smallest element of a nonempty list under `strLt`, via a left fold. -/
def foldMin (c : Str) (cs : List Str) : Str :=
  cs.foldl (fun m y => if strLt y m then y else m) c

/-- `Series.mode()[0]`: `Series.mode()` lists the most frequent non-missing
values sorted ascending, and `[0]` takes the first, i.e. the smallest most
frequent value; on an empty or all-missing series `mode()` is empty and `[0]`
raises `KeyError`, modelled as `none`. -/
def mode (l : List Str) : Option Str :=
  match modeCandidates l with
  | [] => none
  | c :: cs => some (foldMin c cs)

/-- `Series.fillna(fallback)` on one cell: a missing cell becomes `fallback`
(so filling with `NaN` leaves it missing), a present cell is unchanged. -/
def fillna {α : Type} (v : Option α) (fallback : Option α) : Option α :=
  match v with
  | some x => some x
  | none => fallback

/-- `df.loc[df['duracion_dias'] < 0, 'duracion_dias'] = m` on one cell:
a non-missing negative value is overwritten with `m`; `NaN < 0` is `False`,
so a missing cell is untouched. -/
def correctNegatives (m : Option ℚ) (v : Option ℚ) : Option ℚ :=
  match v with
  | some x => if x < 0 then m else some x
  | none => none

/-- `df['tipo_vehiculo'].str.strip().str.capitalize()` on one cell: the
elementwise string transforms skip missing cells. -/
def normalizeTipo (v : Option Str) : Option Str :=
  v.map (fun s => pyCapitalize (pyStrip s))

/-- Whether one cell of `duracion_dias` is non-missing and negative
(the mask `df['duracion_dias'] < 0`). -/
def isNegativeDuracion (v : Option ℚ) : Bool :=
  match v with
  | some x => decide (x < 0)
  | none => false

/-- The diagnostic counts printed by the inspection cell. -/
structure InspectReport where
  missing_tipo_vehiculo : Nat
  missing_duracion_dias : Nat
  missing_zona_circulacion : Nat
  duplicated_rows : Nat
  negative_duracion : Nat
deriving DecidableEq

/-- The inspection cell: `df.isnull().sum()`, `df.duplicated().sum()` and
`len(df[df['duracion_dias'] < 0])` read the table and print a report; the
table itself is passed through untouched. -/
def inspectStage (t : Table) : Table × InspectReport :=
  (t,
    { missing_tipo_vehiculo := (t.filter (fun r => r.tipo_vehiculo = none)).length
      missing_duracion_dias := (t.filter (fun r => r.duracion_dias = none)).length
      missing_zona_circulacion := (t.filter (fun r => r.zona_circulacion = none)).length
      duplicated_rows := duplicateRowCount [] t
      negative_duracion := (t.filter (fun r => isNegativeDuracion r.duracion_dias)).length })

/-- The cleaning cell, in the notebook's statement order:
1. `df.drop_duplicates(inplace=True)`
2. `df['tipo_vehiculo'] = df['tipo_vehiculo'].str.strip().str.capitalize()`
3. `median_duracion = df['duracion_dias'].median()` then
   `df['duracion_dias'].fillna(median_duracion, inplace=True)`
4. `most_frequent_zona = df['zona_circulacion'].mode()[0]` then
   `df['zona_circulacion'].fillna(most_frequent_zona, inplace=True)`
5. `df.loc[df['duracion_dias'] < 0, 'duracion_dias'] = median_duracion`
`none` is the `KeyError` raised by `mode()[0]` on an empty mode series. -/
def cleanStage (t : Table) : Option Table :=
  let t1 := dropDuplicates t
  let t2 := t1.map (fun r => { r with tipo_vehiculo := normalizeTipo r.tipo_vehiculo })
  let median_duracion := median (nonNullDuraciones t2)
  let t3 := t2.map (fun r => { r with duracion_dias := fillna r.duracion_dias median_duracion })
  match mode (nonNullZonas t3) with
  | none => none
  | some most_frequent_zona =>
    let t4 := t3.map (fun r =>
      { r with zona_circulacion := fillna r.zona_circulacion (some most_frequent_zona) })
    let t5 := t4.map (fun r =>
      { r with duracion_dias := correctNegatives median_duracion r.duracion_dias })
    some t5

/-- The whole pipeline on a loaded frame: inspect (no mutation), clean, and
persist with the unchanged header and no row-index column. -/
def runPipeline (f : Frame) : Option Frame :=
  (cleanStage (inspectStage f.rows).1).map (fun rs => { header := f.header, rows := rs })

/-- The median actually used by the cleaning cell: the median of the
non-missing durations of the post-deduplication, pre-correction table
(text normalization does not touch `duracion_dias`). -/
def medianDuracionOf (t : Table) : Option ℚ :=
  median (nonNullDuraciones (dropDuplicates t))

/-- The net effect of the cleaning cell on one surviving row, given the
median `m` and the zone mode `z`: `tipo_vehiculo` stripped and capitalized,
`duracion_dias` filled with `m` and then negative values overwritten with `m`,
`zona_circulacion` filled with `z`, other columns untouched. -/
def cleanRow (m : Option ℚ) (z : Str) (r : Row) : Row :=
  { tipo_vehiculo := normalizeTipo r.tipo_vehiculo
    duracion_dias := correctNegatives m (fillna r.duracion_dias m)
    zona_circulacion := fillna r.zona_circulacion (some z)
    extra := r.extra }

/-- Specification-side definition for the tie-break the spec asserts: the
most frequent value whose first occurrence in the column comes earliest
(`modeCandidates` lists the maximal-count values in first-occurrence order,
so this is its head). Compared against the code's `mode`. -/
def specModeFirstEncounter (l : List Str) : Option Str :=
  (modeCandidates l).head?

/-- Specification-side definition for the normalization the spec asserts:
first letter capitalized, the remaining letters unchanged in case.
Compared against the code's `pyCapitalize`. -/
def specCapitalizeKeepRest : Str → Str
  | [] => []
  | c :: cs => c.toUpper :: cs

/-- Specification-side normalization per the spec's words: trim surrounding
whitespace, then capitalize the first letter leaving the rest unchanged. -/
def specNormalizeTipoKeepRest (v : Option Str) : Option Str :=
  v.map (fun s => specCapitalizeKeepRest (pyStrip s))

/-- The amended normalization: trim surrounding whitespace, uppercase the
first character, lowercase every remaining character. -/
def specCapitalizeRestLower : Str → Str
  | [] => []
  | c :: cs => c.toUpper :: cs.map Char.toLower

/- Concrete tables used by the witnesses and counterexamples. -/

/-- A row with no vehicle type and no extra columns. -/
def mkRow (d : Option ℚ) (z : Option Str) : Row :=
  { tipo_vehiculo := none, duracion_dias := d, zona_circulacion := z, extra := [] }

/-- The spec's median test input: `duracion_dias` column `[5, -3, null, 7, 9]`,
already free of duplicate rows. -/
def exMedianTable : Table :=
  [mkRow (some 5) (some ['A']), mkRow (some (-3)) (some ['A']),
   mkRow none (some ['B']), mkRow (some 7) (some ['A']), mkRow (some 9) (some ['A'])]

/-- A duplicate-free table whose post-dedup durations are all negative:
`[-5, -4, -3]`, so the median itself is `-4`. -/
def exNegMedianTable : Table :=
  [mkRow (some (-5)) (some ['A']), mkRow (some (-4)) (some ['A']),
   mkRow (some (-3)) (some ['A'])]

/-- A table whose durations are `[5, null, -2, 7]` (median `5 ≥ 0`) and whose
zones are all present. -/
def exCleanTable : Table :=
  [mkRow (some 5) (some ['A']), mkRow none (some ['A']),
   mkRow (some (-2)) (some ['A']), mkRow (some 7) (some ['A'])]

/-- A single row whose `duracion_dias` is missing while the whole column is
missing, with a present zone. -/
def exAllNullDurTable : Table :=
  [mkRow none (some ['A'])]

/-- Zones `[B, A, A, null, B]`: `A` and `B` tie at count two; `B` is
encountered first, `A` is the ascending-order winner. -/
def exTieTable : Table :=
  [mkRow (some 1) (some ['B']), mkRow (some 2) (some ['A']),
   mkRow (some 3) (some ['A']), mkRow (some 4) none,
   mkRow (some 5) (some ['B'])]

/-- One row whose `tipo_vehiculo` is `"aBC"`: the code produces `"Abc"`,
keeping the case of the tail unchanged would produce `"ABC"`. -/
def exTipoTable : Table :=
  [{ tipo_vehiculo := some ['a', 'B', 'C'], duracion_dias := some 1,
     zona_circulacion := some ['A'], extra := [] }]

/-- A table with a duplicated row and a passthrough extra column. -/
def exDupTable : Table :=
  [{ tipo_vehiculo := some ['m'], duracion_dias := some 2,
     zona_circulacion := some ['A'], extra := [some ['p']] },
   { tipo_vehiculo := some ['m'], duracion_dias := some 2,
     zona_circulacion := some ['A'], extra := [some ['p']] },
   { tipo_vehiculo := none, duracion_dias := none,
     zona_circulacion := none, extra := [some ['q']] }]

/-- `exDupTable` together with its four-column header. -/
def exFrame : Frame :=
  { header := [['t'], ['d'], ['z'], ['x']], rows := exDupTable }

/-- The cleaned form of `exCleanTable`: the missing and the negative duration
both become the median `5`. -/
def exCleanResult : Table :=
  [mkRow (some 5) (some ['A']), mkRow (some 5) (some ['A']),
   mkRow (some 5) (some ['A']), mkRow (some 7) (some ['A'])]

/-- The cleaned form of `exDupTable`: one duplicate dropped, `tipo_vehiculo`
capitalized, missing duration filled with the median `2`, missing zone filled
with the mode `A`, extra cells untouched. -/
def exDupResult : Table :=
  [{ tipo_vehiculo := some ['M'], duracion_dias := some 2,
     zona_circulacion := some ['A'], extra := [some ['p']] },
   { tipo_vehiculo := none, duracion_dias := some 2,
     zona_circulacion := some ['A'], extra := [some ['q']] }]

/-- The cleaned form of `exTipoTable`: `"aBC"` becomes `"Abc"`. -/
def exTipoResult : Table :=
  [{ tipo_vehiculo := some ['A', 'b', 'c'], duracion_dias := some 1,
     zona_circulacion := some ['A'], extra := [] }]

/-- The cleaned form of `exFrame`: same header, cleaned rows. -/
def exFrameResult : Frame :=
  { header := [['t'], ['d'], ['z'], ['x']], rows := exDupResult }

/-! ### Lemmas about first-occurrence deduplication -/

section Dedup

variable {α : Type} [DecidableEq α]

theorem mem_dropDuplicates {a : α} : ∀ {l : List α}, a ∈ dropDuplicates l ↔ a ∈ l
  | [] => Iff.rfl
  | x :: xs => by
    simp only [dropDuplicates, List.mem_cons, List.mem_filter,
      mem_dropDuplicates (l := xs), decide_eq_true_eq]
    by_cases hax : a = x
    · simp [hax]
    · simp [hax]

theorem dropDuplicates_sublist : ∀ l : List α, List.Sublist (dropDuplicates l) l
  | [] => List.Sublist.refl []
  | x :: xs =>
    List.Sublist.cons₂ x (((dropDuplicates xs).filter_sublist).trans (dropDuplicates_sublist xs))

theorem dropDuplicates_filter (p : α → Bool) :
    ∀ l : List α, dropDuplicates (l.filter p) = (dropDuplicates l).filter p
  | [] => rfl
  | x :: xs => by
    by_cases hp : p x
    · rw [List.filter_cons_of_pos hp, dropDuplicates, dropDuplicates,
        List.filter_cons_of_pos hp, dropDuplicates_filter p xs, List.filter_comm]
    · rw [List.filter_cons_of_neg hp, dropDuplicates, dropDuplicates_filter p xs,
        List.filter_cons_of_neg hp, List.filter_comm]
      refine (List.filter_eq_self.mpr ?_).symm
      intro a ha
      rcases List.mem_filter.mp ha with ⟨_, hpa⟩
      simp only [decide_eq_true_eq]
      rintro rfl
      exact hp hpa

theorem dropDuplicates_idem : ∀ l : List α, dropDuplicates (dropDuplicates l) = dropDuplicates l
  | [] => rfl
  | x :: xs => by
    have hff : ∀ m : List α, (m.filter (fun y => y ≠ x)).filter (fun y => y ≠ x)
        = m.filter (fun y => y ≠ x) := by
      intro m
      rw [List.filter_filter]
      apply List.filter_congr
      intro a _
      exact Bool.and_self _
    calc dropDuplicates (dropDuplicates (x :: xs))
        = x :: (dropDuplicates ((dropDuplicates xs).filter (fun y => y ≠ x))).filter
            (fun y => y ≠ x) := rfl
      _ = x :: ((dropDuplicates (dropDuplicates xs)).filter (fun y => y ≠ x)).filter
            (fun y => y ≠ x) := by rw [dropDuplicates_filter (fun y => y ≠ x) (dropDuplicates xs)]
      _ = x :: ((dropDuplicates xs).filter (fun y => y ≠ x)).filter (fun y => y ≠ x) := by
            rw [dropDuplicates_idem xs]
      _ = x :: (dropDuplicates xs).filter (fun y => y ≠ x) := by rw [hff]
      _ = dropDuplicates (x :: xs) := rfl

theorem specKeepFirst_eq_filter (seen : List α) :
    ∀ l : List α, specKeepFirst seen l = (dropDuplicates l).filter (fun y => y ∉ seen)
  | [] => rfl
  | x :: xs => by
    by_cases hx : x ∈ seen
    · rw [specKeepFirst, if_pos hx, specKeepFirst_eq_filter seen xs, dropDuplicates,
        List.filter_cons_of_neg (by simpa using hx), List.filter_comm]
      refine (List.filter_eq_self.mpr ?_).symm
      intro a ha
      rcases List.mem_filter.mp ha with ⟨_, hpa⟩
      simp only [decide_eq_true_eq] at hpa ⊢
      rintro rfl
      exact hpa hx
    · rw [specKeepFirst, if_neg hx, specKeepFirst_eq_filter (x :: seen) xs, dropDuplicates,
        List.filter_cons_of_pos (by simpa using hx), List.filter_filter]
      congr 1
      apply List.filter_congr
      intro a _
      simp [List.mem_cons, not_or, Bool.decide_and, Bool.and_comm]

theorem dropDuplicates_eq_specKeepFirst (l : List α) : dropDuplicates l = specKeepFirst [] l := by
  rw [specKeepFirst_eq_filter]
  refine (List.filter_eq_self.mpr ?_).symm
  intro a _
  simp

theorem specKeepFirst_length_add (seen : List α) :
    ∀ l : List α, (specKeepFirst seen l).length + duplicateRowCount seen l = l.length
  | [] => rfl
  | x :: xs => by
    by_cases hx : x ∈ seen
    · rw [specKeepFirst, if_pos hx, duplicateRowCount, if_pos hx]
      have := specKeepFirst_length_add seen xs
      simp only [List.length_cons]
      omega
    · rw [specKeepFirst, if_neg hx, duplicateRowCount, if_neg hx]
      have := specKeepFirst_length_add (x :: seen) xs
      simp only [List.length_cons]
      omega

end Dedup

/-! ### Lemmas about the Python string order `strLt` -/

theorem char_lt_trichotomy (c d : Char) : c.toNat < d.toNat ∨ c = d ∨ d.toNat < c.toNat := by
  rcases Nat.lt_trichotomy c.toNat d.toNat with h | h | h
  · exact Or.inl h
  · exact Or.inr (Or.inl (Char.eq_of_val_eq (UInt32.ext h)))
  · exact Or.inr (Or.inr h)

theorem strLt_irrefl : ∀ s : Str, strLt s s = false
  | [] => rfl
  | c :: cs => by
    rw [strLt]
    simp [strLt_irrefl cs]

theorem strLt_trans : ∀ a b c : Str, strLt a b = true → strLt b c = true → strLt a c = true
  | _, [], _, hab, _ => by simp [strLt] at hab
  | _ :: _, _ :: _, [], _, hbc => by simp [strLt] at hbc
  | [], _ :: _, _ :: _, _, _ => rfl
  | p :: ps, q :: qs, r :: rs, hab, hbc => by
    rw [strLt] at hab hbc ⊢
    simp only [Bool.or_eq_true, Bool.and_eq_true, decide_eq_true_eq] at hab hbc ⊢
    rcases hab with hpq | ⟨hpq, hps⟩
    · rcases hbc with hqr | ⟨hqr, _⟩
      · exact Or.inl (Nat.lt_trans hpq hqr)
      · exact Or.inl (hqr ▸ hpq)
    · rcases hbc with hqr | ⟨hqr, hqs⟩
      · exact Or.inl (hpq ▸ hqr)
      · exact Or.inr ⟨hpq.trans hqr, strLt_trans ps qs rs hps hqs⟩

theorem strLt_trichotomy : ∀ a b : Str, strLt a b = true ∨ a = b ∨ strLt b a = true
  | [], [] => Or.inr (Or.inl rfl)
  | [], _ :: _ => Or.inl rfl
  | _ :: _, [] => Or.inr (Or.inr rfl)
  | c :: cs, d :: ds => by
    rcases char_lt_trichotomy c d with h | h | h
    · exact Or.inl (by rw [strLt]; simp [h])
    · subst h
      rcases strLt_trichotomy cs ds with h2 | h2 | h2
      · exact Or.inl (by rw [strLt]; simp [h2])
      · exact Or.inr (Or.inl (by rw [h2]))
      · exact Or.inr (Or.inr (by rw [strLt]; simp [h2]))
    · exact Or.inr (Or.inr (by rw [strLt]; simp [h]))

theorem strLt_asymm (a b : Str) (h : strLt a b = true) : strLt b a = false := by
  by_contra hc
  have hba : strLt b a = true := by
    cases hh : strLt b a
    · exact absurd hh hc
    · rfl
  have := strLt_trans a b a h hba
  rw [strLt_irrefl] at this
  cases this

/-! ### Lemmas about `foldMin` and `mode` -/

theorem foldMin_cons (c y : Str) (ys : List Str) :
    foldMin c (y :: ys) = foldMin (if strLt y c then y else c) ys := rfl

theorem foldMin_mem : ∀ (cs : List Str) (c : Str), foldMin c cs ∈ c :: cs
  | [], c => List.mem_cons_self c []
  | y :: ys, c => by
    rw [foldMin_cons]
    have hmem := foldMin_mem ys (if strLt y c then y else c)
    rcases List.mem_cons.mp hmem with h | h
    · rw [h]
      by_cases hlt : strLt y c
      · simp [hlt]
      · simp [hlt]
    · exact List.mem_cons_of_mem _ (List.mem_cons_of_mem _ h)

theorem foldMin_not_lt : ∀ (cs : List Str) (c : Str), ∀ w ∈ c :: cs, strLt w (foldMin c cs) = false
  | [], c, w, hw => by
    rcases List.mem_cons.mp hw with h | h
    · rw [h, foldMin]
      exact strLt_irrefl c
    · cases h
  | y :: ys, c, w, hw => by
    rw [foldMin_cons]
    by_cases hlt : strLt y c = true
    · rw [if_pos hlt]
      rcases List.mem_cons.mp hw with h | h
      · subst h
        cases hwM : strLt w (foldMin y ys)
        · rfl
        · exact absurd (strLt_trans y w _ hlt hwM)
            (by rw [foldMin_not_lt ys y y (List.mem_cons_self y ys)]; simp)
      · exact foldMin_not_lt ys y w h
    · rw [if_neg hlt]
      rcases List.mem_cons.mp hw with h | h
      · subst h
        exact foldMin_not_lt ys w w (List.mem_cons_self w ys)
      · rcases List.mem_cons.mp h with h2 | h2
        · subst h2
          rcases strLt_trichotomy w c with h3 | h3 | h3
          · exact absurd h3 hlt
          · rw [h3]
            exact foldMin_not_lt ys c c (List.mem_cons_self c ys)
          · cases hwM : strLt w (foldMin c ys)
            · rfl
            · exact absurd (strLt_trans c w _ h3 hwM)
                (by rw [foldMin_not_lt ys c c (List.mem_cons_self c ys)]; simp)
        · exact foldMin_not_lt ys c w (List.mem_cons_of_mem c h2)

theorem foldr_max_mem : ∀ ns : List Nat, ns ≠ [] → ns.foldr max 0 ∈ ns
  | [], h => absurd rfl h
  | [n], _ => by simp
  | n :: m :: ms, _ => by
    rw [List.foldr_cons]
    rcases Nat.le_total ((m :: ms).foldr max 0) n with h | h
    · rw [Nat.max_eq_left h]
      exact List.mem_cons_self n (m :: ms)
    · rw [Nat.max_eq_right h]
      exact List.mem_cons_of_mem n (foldr_max_mem (m :: ms) (by simp))

theorem le_foldr_max : ∀ (ns : List Nat) (n : Nat), n ∈ ns → n ≤ ns.foldr max 0
  | m :: ms, n, h => by
    rw [List.foldr_cons]
    rcases List.mem_cons.mp h with h1 | h1
    · rw [h1]
      exact Nat.le_max_left m (ms.foldr max 0)
    · exact (le_foldr_max ms n h1).trans (Nat.le_max_right m (ms.foldr max 0))

theorem dropDuplicates_ne_nil {l : List Str} (h : l ≠ []) : dropDuplicates l ≠ [] := by
  cases l with
  | nil => exact absurd rfl h
  | cons x xs => rw [dropDuplicates]; simp

/-- Characterization of `mode` on a nonempty list: it returns a value of the
list of maximal occurrence count, and no other maximal-count value precedes
it in Python's ascending string order. -/
theorem mode_spec (l : List Str) (h : l ≠ []) :
    ∃ z, mode l = some z ∧ z ∈ l ∧ (∀ y ∈ l, l.count y ≤ l.count z) ∧
      (∀ y ∈ l, l.count y = l.count z → strLt y z = false) := by
  have hKmem : maxCountOf l ∈ (dropDuplicates l).map (fun v => l.count v) := by
    apply foldr_max_mem
    simp [dropDuplicates_ne_nil h]
  obtain ⟨v, hv, hvK⟩ := List.mem_map.mp hKmem
  have hcand : v ∈ modeCandidates l :=
    List.mem_filter.mpr ⟨hv, by simp [hvK]⟩
  cases hmc : modeCandidates l with
  | nil => rw [hmc] at hcand; cases hcand
  | cons c cs =>
    have hzmem : foldMin c cs ∈ modeCandidates l := by
      rw [hmc]; exact foldMin_mem cs c
    have hzuniq := List.mem_filter.mp hzmem
    have hzK : l.count (foldMin c cs) = maxCountOf l := by
      have := hzuniq.2
      simpa using this
    refine ⟨foldMin c cs, ?_, ?_, ?_, ?_⟩
    · rw [mode, hmc]
    · exact mem_dropDuplicates.mp hzuniq.1
    · intro y hy
      rw [hzK]
      exact le_foldr_max _ _ (List.mem_map.mpr ⟨y, mem_dropDuplicates.mpr hy, rfl⟩)
    · intro y hy hcount
      have hycand : y ∈ modeCandidates l :=
        List.mem_filter.mpr ⟨mem_dropDuplicates.mpr hy, by simp [hcount, hzK]⟩
      rw [hmc] at hycand
      exact foldMin_not_lt cs c y hycand

/-! ### Lemmas about `median` -/

theorem median_isSome (l : List ℚ) (h : l ≠ []) : ∃ m, median l = some m := by
  have h0 : ¬ (List.insertionSort (· ≤ ·) l).length = 0 := by
    rw [List.length_insertionSort]
    simpa [List.length_eq_zero] using h
  simp only [median]
  rw [if_neg h0]
  by_cases h1 : (List.insertionSort (· ≤ ·) l).length % 2 = 1
  · rw [if_pos h1]
    exact ⟨_, rfl⟩
  · rw [if_neg h1]
    exact ⟨_, rfl⟩

/-! ### The Clean stage as a single row map -/

theorem nonNullDuraciones_tipoMap (t : Table) :
    nonNullDuraciones (t.map (fun r => { r with tipo_vehiculo := normalizeTipo r.tipo_vehiculo }))
      = nonNullDuraciones t := by
  rw [nonNullDuraciones, nonNullDuraciones, List.filterMap_map]
  rfl

theorem nonNullZonas_map2 (m : Option ℚ) (t : Table) :
    nonNullZonas ((t.map (fun r => { r with tipo_vehiculo := normalizeTipo r.tipo_vehiculo })).map
      (fun r => { r with duracion_dias := fillna r.duracion_dias m })) = nonNullZonas t := by
  rw [nonNullZonas, nonNullZonas, List.filterMap_map, List.filterMap_map]
  rfl

/-- When the zone mode exists, the cleaning cell amounts to deduplication
followed by the per-row transform `cleanRow`. -/
theorem cleanStage_eq_some (t : Table) (z : Str)
    (hz : mode (nonNullZonas (dropDuplicates t)) = some z) :
    cleanStage t = some ((dropDuplicates t).map (cleanRow (medianDuracionOf t) z)) := by
  simp only [cleanStage]
  rw [nonNullDuraciones_tipoMap, nonNullZonas_map2, hz]
  simp only [List.map_map]
  rfl

/-- When the zone mode does not exist (`mode()[0]` raises), the cleaning cell
aborts. -/
theorem cleanStage_eq_none (t : Table)
    (hz : mode (nonNullZonas (dropDuplicates t)) = none) :
    cleanStage t = none := by
  simp only [cleanStage]
  rw [nonNullDuraciones_tipoMap, nonNullZonas_map2, hz]

/-- Inversion: a successful Clean run is deduplication followed by
`cleanRow` with the post-dedup median and some zone mode. -/
theorem cleanStage_some_elim (t t' : Table) (h : cleanStage t = some t') :
    ∃ z, mode (nonNullZonas (dropDuplicates t)) = some z ∧
      t' = (dropDuplicates t).map (cleanRow (medianDuracionOf t) z) := by
  cases hz : mode (nonNullZonas (dropDuplicates t)) with
  | none =>
    rw [cleanStage_eq_none t hz] at h
    cases h
  | some z =>
    rw [cleanStage_eq_some t z hz] at h
    exact ⟨z, rfl, (Option.some_injective _ h).symm⟩

/-- A table mapped row by row is pointwise related to its source. -/
theorem forall₂_map_self {R : Row → Row → Prop} (f : Row → Row) (d : Table)
    (h : ∀ r ∈ d, R r (f r)) : List.Forall₂ R d (d.map f) := by
  rw [List.forall₂_map_right_iff]
  exact List.forall₂_same.mpr h

/-- `pyCapitalize` lowercases everything after the first character. -/
theorem pyCapitalize_eq_specRestLower (s : Str) : pyCapitalize s = specCapitalizeRestLower s := by
  cases s <;> rfl

/-! ### The claims -/

/-- Claim C1, counterexample: on durations `[5, -3, null, 7, 9]` the code's
median is taken over all non-missing values `[5, -3, 7, 9]`, negatives
included, giving `(5+7)/2 = 6`, not the `7` the claim states, and the null and
negative rows both become `6`, not `7`. -/
theorem claim_C1_counterexample :
    medianDuracionOf exMedianTable ≠ some 7 ∧
    (((cleanStage exMedianTable).getD []).getD 1 defaultRow).duracion_dias ≠ some 7 ∧
    (((cleanStage exMedianTable).getD []).getD 2 defaultRow).duracion_dias ≠ some 7 := by
  have h1 : nonNullDuraciones (dropDuplicates exMedianTable) = [5, -3, 7, 9] := by decide
  have h2 : List.insertionSort (· ≤ ·) [(5 : ℚ), -3, 7, 9] = [-3, 5, 7, 9] := by decide
  have hm : medianDuracionOf exMedianTable = some 6 := by
    rw [medianDuracionOf, h1]
    simp only [median, h2]
    norm_num [List.getD_cons_zero, List.getD_cons_succ]
  have hz : mode (nonNullZonas (dropDuplicates exMedianTable)) = some ['A'] := by decide
  rw [cleanStage_eq_some exMedianTable ['A'] hz, hm]
  decide

/-- Claim C1 (amended): for the post-deduplication input whose `duracion_dias`
column is `[5, -3, null, 7, 9]`, the Clean stage computes
`median_duracion = 6` (the median of the non-missing values `[5, -3, 7, 9]`,
used for imputation), and after cleaning both the row that had `null` and the
row that had `-3` have `duracion_dias = 6`. -/
theorem claim_C1 :
    medianDuracionOf exMedianTable = some 6 ∧
    cleanStage exMedianTable = some
      [mkRow (some 5) (some ['A']), mkRow (some 6) (some ['A']), mkRow (some 6) (some ['B']),
       mkRow (some 7) (some ['A']), mkRow (some 9) (some ['A'])] := by
  have h1 : nonNullDuraciones (dropDuplicates exMedianTable) = [5, -3, 7, 9] := by decide
  have h2 : List.insertionSort (· ≤ ·) [(5 : ℚ), -3, 7, 9] = [-3, 5, 7, 9] := by decide
  have hm : medianDuracionOf exMedianTable = some 6 := by
    rw [medianDuracionOf, h1]
    simp only [median, h2]
    norm_num [List.getD_cons_zero, List.getD_cons_succ]
  have hz : mode (nonNullZonas (dropDuplicates exMedianTable)) = some ['A'] := by decide
  refine ⟨hm, ?_⟩
  rw [cleanStage_eq_some exMedianTable ['A'] hz, hm]
  decide

/-- Claim C2, counterexample: when every post-dedup duration is negative the
median itself is negative, the overwrite of step g replaces each negative
duration with that negative median, and the cleaned table still contains
`duracion_dias = -4 < 0`. -/
theorem claim_C2_counterexample :
    cleanStage exNegMedianTable = some
      [mkRow (some (-4)) (some ['A']), mkRow (some (-4)) (some ['A']),
       mkRow (some (-4)) (some ['A'])] ∧
    (((cleanStage exNegMedianTable).getD []).getD 0 defaultRow).duracion_dias = some (-4) ∧
    ((-4 : ℚ) < 0) := by decide

/-- Claim C2 (amended): if the median of the post-dedup non-missing durations
is non-negative, then after the Clean stage every row has a non-missing
`duracion_dias ≥ 0`; in particular every row filled by step d ends with
exactly the median value, which the negative-value overwrite of step g leaves
in place. -/
theorem claim_C2 (t : Table) (m : ℚ) (hm : medianDuracionOf t = some m) (hpos : 0 ≤ m)
    (t' : Table) (h : cleanStage t = some t') :
    (∀ r ∈ t', ∃ x, r.duracion_dias = some x ∧ 0 ≤ x) ∧
    List.Forall₂ (fun r r' => r.duracion_dias = none → r'.duracion_dias = some m)
      (dropDuplicates t) t' := by
  obtain ⟨z, hz, rfl⟩ := cleanStage_some_elim t t' h
  rw [hm]
  constructor
  · intro r' hr'
    obtain ⟨r0, _, rfl⟩ := List.mem_map.mp hr'
    cases hd : r0.duracion_dias with
    | none =>
      refine ⟨m, ?_, hpos⟩
      simp [cleanRow, hd, fillna, correctNegatives]
    | some x =>
      by_cases hx : x < 0
      · refine ⟨m, ?_, hpos⟩
        simp [cleanRow, hd, fillna, correctNegatives, hx]
      · refine ⟨x, ?_, le_of_not_lt hx⟩
        simp [cleanRow, hd, fillna, correctNegatives, hx]
  · apply forall₂_map_self
    intro r _ hnone
    simp [cleanRow, hnone, fillna, correctNegatives]

/-- Claim C2, witness at `exCleanTable` (durations `[5, null, -2, 7]`,
median `5`). -/
theorem claim_C2_witness :
    (∀ r ∈ exCleanResult, ∃ x, r.duracion_dias = some x ∧ 0 ≤ x) ∧
    List.Forall₂ (fun r r' => r.duracion_dias = none → r'.duracion_dias = some 5)
      (dropDuplicates exCleanTable) exCleanResult :=
  claim_C2 exCleanTable 5 (by decide) (by decide) exCleanResult (by decide)

/-- Claim C3, counterexample: when the whole `duracion_dias` column is
missing, the median is `NaN`, `fillna(NaN)` silently does nothing, and the
Clean stage completes with a null `duracion_dias` instead of failing. -/
theorem claim_C3_counterexample :
    cleanStage exAllNullDurTable = some [mkRow none (some ['A'])] ∧
    (((cleanStage exAllNullDurTable).getD []).getD 0 defaultRow).duracion_dias = none := by
  decide

/-- Claim C3 (amended): whenever the Clean stage completes, every row has a
non-null `zona_circulacion`; and if at least one post-dedup `duracion_dias`
is non-missing, every row also has a non-null `duracion_dias` (an entirely
missing duration column is passed through as nulls without any error). -/
theorem claim_C3 (t t' : Table) (h : cleanStage t = some t') :
    (∀ r ∈ t', r.zona_circulacion ≠ none) ∧
    (nonNullDuraciones (dropDuplicates t) ≠ [] → ∀ r ∈ t', r.duracion_dias ≠ none) := by
  obtain ⟨z, hz, rfl⟩ := cleanStage_some_elim t t' h
  constructor
  · intro r' hr'
    obtain ⟨r0, _, rfl⟩ := List.mem_map.mp hr'
    cases hzr : r0.zona_circulacion <;> simp [cleanRow, fillna, hzr]
  · intro hne r' hr'
    obtain ⟨m, hm⟩ := median_isSome _ hne
    obtain ⟨r0, _, rfl⟩ := List.mem_map.mp hr'
    rw [medianDuracionOf] at *
    cases hd : r0.duracion_dias with
    | none =>
      simp only [cleanRow, hd, fillna, correctNegatives, hm]
      split <;> simp
    | some x =>
      simp only [cleanRow, hd, fillna, correctNegatives, hm]
      split <;> simp

/-- Claim C3, witness at `exCleanTable`. -/
theorem claim_C3_witness :
    (∀ r ∈ exCleanResult, r.zona_circulacion ≠ none) ∧
    (nonNullDuraciones (dropDuplicates exCleanTable) ≠ [] →
      ∀ r ∈ exCleanResult, r.duracion_dias ≠ none) :=
  claim_C3 exCleanTable exCleanResult (by decide)

/-- Claim C4, counterexample: on zones `[B, A, A, null, B]` the values `A`
and `B` tie at count two; the first-encountered value is `B`, but
`mode()[0]` picks the ascending-order smallest `A`, and the missing zone is
filled with `A`. -/
theorem claim_C4_counterexample :
    mode (nonNullZonas (dropDuplicates exTieTable)) = some ['A'] ∧
    specModeFirstEncounter (nonNullZonas (dropDuplicates exTieTable)) = some ['B'] ∧
    (['A'] : Str) ≠ ['B'] ∧
    (((cleanStage exTieTable).getD []).getD 3 defaultRow).zona_circulacion = some ['A'] := by
  decide

/-- Claim C4 (amended): for every input table with at least one non-missing
`zona_circulacion` value, the Clean stage completes, and every missing
`zona_circulacion` is filled with a single most frequent non-missing value of
the column; when several values tie for the highest frequency, the tie is
broken by the smallest value in ascending (Python string) order, not by
first-encountered order. -/
theorem claim_C4 (t : Table) (h : nonNullZonas (dropDuplicates t) ≠ []) :
    ∃ z, mode (nonNullZonas (dropDuplicates t)) = some z ∧
      z ∈ nonNullZonas (dropDuplicates t) ∧
      (∀ y ∈ nonNullZonas (dropDuplicates t),
        (nonNullZonas (dropDuplicates t)).count y ≤ (nonNullZonas (dropDuplicates t)).count z) ∧
      (∀ y ∈ nonNullZonas (dropDuplicates t),
        (nonNullZonas (dropDuplicates t)).count y = (nonNullZonas (dropDuplicates t)).count z →
          strLt y z = false) ∧
      cleanStage t = some ((dropDuplicates t).map (cleanRow (medianDuracionOf t) z)) ∧
      List.Forall₂ (fun r r' => r'.zona_circulacion = some (r.zona_circulacion.getD z))
        (dropDuplicates t) ((dropDuplicates t).map (cleanRow (medianDuracionOf t) z)) := by
  obtain ⟨z, hz, hmem, hmax, htie⟩ := mode_spec _ h
  refine ⟨z, hz, hmem, hmax, htie, cleanStage_eq_some t z hz, ?_⟩
  apply forall₂_map_self
  intro r _
  cases hzr : r.zona_circulacion <;> simp [cleanRow, fillna, hzr]

/-- Claim C4, witness at `exCleanTable`. -/
theorem claim_C4_witness :
    ∃ z, mode (nonNullZonas (dropDuplicates exCleanTable)) = some z ∧
      z ∈ nonNullZonas (dropDuplicates exCleanTable) ∧
      (∀ y ∈ nonNullZonas (dropDuplicates exCleanTable),
        (nonNullZonas (dropDuplicates exCleanTable)).count y ≤
          (nonNullZonas (dropDuplicates exCleanTable)).count z) ∧
      (∀ y ∈ nonNullZonas (dropDuplicates exCleanTable),
        (nonNullZonas (dropDuplicates exCleanTable)).count y =
          (nonNullZonas (dropDuplicates exCleanTable)).count z → strLt y z = false) ∧
      cleanStage exCleanTable =
        some ((dropDuplicates exCleanTable).map
          (cleanRow (medianDuracionOf exCleanTable) z)) ∧
      List.Forall₂ (fun r r' => r'.zona_circulacion = some (r.zona_circulacion.getD z))
        (dropDuplicates exCleanTable)
        ((dropDuplicates exCleanTable).map (cleanRow (medianDuracionOf exCleanTable) z)) :=
  claim_C4 exCleanTable (by decide)

/-- Claim C5, counterexample: the code applies Python's `str.capitalize()`,
which lowercases every character after the first: `"aBC"` becomes `"Abc"`,
not the `"ABC"` that leaving the remaining letters unchanged would give. -/
theorem claim_C5_counterexample :
    cleanStage exTipoTable = some exTipoResult ∧
    (((cleanStage exTipoTable).getD []).getD 0 defaultRow).tipo_vehiculo = some ['A', 'b', 'c'] ∧
    specNormalizeTipoKeepRest (some ['a', 'B', 'C']) = some ['A', 'B', 'C'] ∧
    (some ['A', 'b', 'c'] : Option Str) ≠ some ['A', 'B', 'C'] := by decide

/-- Claim C5 (amended): after cleaning, each non-null `tipo_vehiculo` equals
the original value with surrounding whitespace removed, its first character
uppercased, and every remaining character lowercased. -/
theorem claim_C5 (t t' : Table) (h : cleanStage t = some t') :
    List.Forall₂
      (fun r r' =>
        r'.tipo_vehiculo = r.tipo_vehiculo.map (fun s => specCapitalizeRestLower (pyStrip s)))
      (dropDuplicates t) t' := by
  obtain ⟨z, hz, rfl⟩ := cleanStage_some_elim t t' h
  apply forall₂_map_self
  intro r _
  cases ht : r.tipo_vehiculo <;>
    simp [cleanRow, normalizeTipo, ht, pyCapitalize_eq_specRestLower]

/-- Claim C5, witness at `exTipoTable`. -/
theorem claim_C5_witness :
    List.Forall₂
      (fun r r' =>
        r'.tipo_vehiculo = r.tipo_vehiculo.map (fun s => specCapitalizeRestLower (pyStrip s)))
      (dropDuplicates exTipoTable) exTipoResult :=
  claim_C5 exTipoTable exTipoResult (by decide)

/-- Claim C6: deduplication removes exactly the rows equal to an earlier row
(`specKeepFirst`), keeps first occurrences in order (it is a sublist of the
input), the surviving count plus the duplicate count is the input count, and
no later stage adds or drops a row. -/
theorem claim_C6 (t : Table) :
    dropDuplicates t = specKeepFirst [] t ∧
    List.Sublist (dropDuplicates t) t ∧
    (dropDuplicates t).length + duplicateRowCount [] t = t.length ∧
    (∀ t', cleanStage t = some t' → t'.length = (dropDuplicates t).length) := by
  refine ⟨dropDuplicates_eq_specKeepFirst t, dropDuplicates_sublist t, ?_, ?_⟩
  · rw [dropDuplicates_eq_specKeepFirst t]
    exact specKeepFirst_length_add [] t
  · intro t' h
    obtain ⟨z, hz, rfl⟩ := cleanStage_some_elim t t' h
    simp

/-- Claim C6, witness at `exDupTable` (three rows, one exact duplicate). -/
theorem claim_C6_witness :
    dropDuplicates exDupTable = specKeepFirst [] exDupTable ∧
    exDupResult.length = (dropDuplicates exDupTable).length :=
  ⟨(claim_C6 exDupTable).1, (claim_C6 exDupTable).2.2.2 exDupResult (by decide)⟩

/-- Claim C7: first-occurrence duplicate removal is idempotent. -/
theorem claim_C7 (t : Table) : dropDuplicates (dropDuplicates t) = dropDuplicates t :=
  dropDuplicates_idem t

/-- Claim C8: the pipeline writes the very header it read (no row-index
column is added), and every column other than `tipo_vehiculo`,
`duracion_dias` and `zona_circulacion` is carried through unchanged on every
surviving row. -/
theorem claim_C8 (f g : Frame) (h : runPipeline f = some g) :
    g.header = f.header ∧
    List.Forall₂ (fun r r' => r'.extra = r.extra) (dropDuplicates f.rows) g.rows := by
  simp only [runPipeline] at h
  rw [Option.map_eq_some'] at h
  obtain ⟨rs, hc, rfl⟩ := h
  obtain ⟨z, hz, rfl⟩ := cleanStage_some_elim _ _ hc
  refine ⟨rfl, ?_⟩
  apply forall₂_map_self
  intro r _
  rfl

/-- Claim C8, witness at `exFrame`. -/
theorem claim_C8_witness :
    exFrameResult.header = exFrame.header ∧
    List.Forall₂ (fun r r' => r'.extra = r.extra)
      (dropDuplicates exFrame.rows) exFrameResult.rows :=
  claim_C8 exFrame exFrameResult (by decide)

/-- Claim C9: the Inspect stage only reads — the table it passes on is the
table it received — while its report's duplicate count is exactly the number
of rows the later deduplication removes. -/
theorem claim_C9 (t : Table) :
    (inspectStage t).1 = t ∧
    (inspectStage t).2.duplicated_rows + (dropDuplicates t).length = t.length := by
  refine ⟨rfl, ?_⟩
  show duplicateRowCount [] t + (dropDuplicates t).length = t.length
  rw [dropDuplicates_eq_specKeepFirst t]
  have := specKeepFirst_length_add [] t
  omega

/-- Claim C10: `tipo_vehiculo` is never imputed — the elementwise string
normalization maps missing to missing, and no fill targets this column, so a
surviving row's `tipo_vehiculo` is missing in the output exactly when it was
missing in the input. -/
theorem claim_C10 (t t' : Table) (h : cleanStage t = some t') :
    List.Forall₂ (fun r r' => r.tipo_vehiculo = none ↔ r'.tipo_vehiculo = none)
      (dropDuplicates t) t' := by
  obtain ⟨z, hz, rfl⟩ := cleanStage_some_elim t t' h
  apply forall₂_map_self
  intro r _
  cases ht : r.tipo_vehiculo <;> simp [cleanRow, normalizeTipo, ht]

/-- Claim C10, witness at `exDupTable` (its surviving second row has a
missing `tipo_vehiculo`). -/
theorem claim_C10_witness :
    List.Forall₂ (fun r r' => r.tipo_vehiculo = none ↔ r'.tipo_vehiculo = none)
      (dropDuplicates exDupTable) exDupResult :=
  claim_C10 exDupTable exDupResult (by decide)

end Circulacion
